import Mathlib

/-!
# Chat widget and voice controller: embedding and verification

Shallow embedding of `app/static/js/chat.js` and `app/static/js/voice.js`.

A JavaScript string is modelled as a `List Char`.  The regular expression
`/<think>[\s\S]*?<\/think>/g` and `String.prototype.trim` only look at
characters of the basic plane, so nothing depends on the difference between
code units and code points.
-/

namespace ChatWidget

/-- A JavaScript string, as the list of its characters. -/
abbrev Str := List Char

/-! ## Text cleaning (`chat.js`, lines 8-14 and 88-91) -/

/-- The literal `<think>` that opens the regular expression. -/
def openTag : Str := ['<', 't', 'h', 'i', 'n', 'k', '>']

/-- The literal `</think>` that closes the regular expression. -/
def closeTag : Str := ['<', '/', 't', 'h', 'i', 'n', 'k', '>']

/-- The call `s.startsWith(p)`. -/
def startsWith : Str → Str → Bool
  | _, [] => true
  | [], _ :: _ => false
  | c :: cs, d :: ds => c == d && startsWith cs ds

/-- The call `s.includes(p)`. -/
def includes : Str → Str → Bool
  | [], p => startsWith [] p
  | c :: cs, p => startsWith (c :: cs) p || includes cs p

/-- Number of characters the lazy `[\s\S]*?` consumes before the first
`</think>` of `s`; `none` when `s` has no `</think>`. -/
def indexOfClose : Str → Option Nat
  | [] => none
  | c :: cs =>
    if startsWith (c :: cs) closeTag then some 0
    else (indexOfClose cs).map (· + 1)

/-- The scan of `replace(/<think>[\s\S]*?<\/think>/g, '')`.  `skip` is the
number of characters of the current match that are still to be dropped.  At a
position outside a match the expression is tried: it matches when `<think>`
starts here and a `</think>` follows it, and then the match runs to the end of
the first such `</think>`; otherwise the character is kept and the scan moves
one position on. -/
def stripFrom : Nat → Str → Str
  | _, [] => []
  | skip + 1, _ :: cs => stripFrom skip cs
  | 0, c :: cs =>
    if startsWith (c :: cs) openTag then
      match indexOfClose ((c :: cs).drop 7) with
      | some n => stripFrom (n + 14) cs
      | none => c :: stripFrom 0 cs
    else c :: stripFrom 0 cs

/-- The call `message.replace(/<think>[\s\S]*?<\/think>/g, '')`. -/
def stripThink (s : Str) : Str := stripFrom 0 s

/-- White space and line terminators of ECMAScript, the characters `trim`
removes. -/
def isWhiteSpace (c : Char) : Bool :=
  let n := c.toNat
  n == 0x09 || n == 0x0A || n == 0x0B || n == 0x0C || n == 0x0D || n == 0x20 ||
  n == 0xA0 || n == 0x1680 || (0x2000 ≤ n && n ≤ 0x200A) || n == 0x2028 ||
  n == 0x2029 || n == 0x202F || n == 0x205F || n == 0x3000 || n == 0xFEFF

/-- The call `s.trim()`. -/
def trim (s : Str) : Str := (s.dropWhile isWhiteSpace).rdropWhile isWhiteSpace

/-- The function `cleanThinkingContent(message)` of `chat.js`. -/
def cleanThinkingContent (message : Str) : Str := trim (stripThink message)

/-- Who wrote a message: the class `user` or `assistant` of its bubble. -/
inductive Role
  | user
  | assistant
  deriving DecidableEq, Repr

/-- A rendered message bubble: its class and the `textContent` of its
paragraph. -/
structure Message where
  role : Role
  text : Str
  deriving DecidableEq, Repr

/-- The children of `chatMessages` that are message bubbles. -/
abbrev Transcript := List Message

/-- The function `addMessage(message, isUser)` of `chat.js`: the assistant text is cleaned
in place by the same expression as `cleanThinkingContent`, the user text is
shown as it is; one bubble is appended. -/
def addMessage (message : Str) (isUser : Bool) (t : Transcript) : Transcript :=
  let cleanedMessage := if !isUser then trim (stripThink message) else message
  t ++ [⟨if isUser then Role.user else Role.assistant, cleanedMessage⟩]

/-- The text contains a thinking span: `<think>` followed later by
`</think>`. -/
def HasSpan (s : Str) : Prop :=
  ∃ a b c : Str, s = a ++ openTag ++ b ++ closeTag ++ c

/-! ## Chat transport (`chat.js`, lines 94-127) -/

/-- What `fetch('/api/v1/chat')` followed by `response.json()` gives:
`failure` when either promise rejects (no connection, body that is not JSON)
or the body is `null`; otherwise the parsed object, with the truthiness of
`data.success`, `data.response` when it is a string, and `data.error`. -/
inductive ChatOutcome
  | failure
  | reply (success : Bool) (response : Option Str) (error : Option Str)
  deriving DecidableEq, Repr

/-- The text rendered when the server reports a failure (line 119). -/
def appErrorText : Str :=
  "I'm sorry, I encountered an error processing your request. Please try again.".toList

/-- The text rendered when the request itself fails (line 124). -/
def offlineText : Str :=
  "I'm sorry, I couldn't connect to the server. Please try again later.".toList

/-- The function `sendMessage(message)` of `chat.js` on a transcript: the new transcript
and the returned value (`none` for `null`).  When `data.success` is truthy but
`data.response` is not a string, `addMessage` throws at `message.replace`
before it touches the document and the `catch` branch runs. -/
def sendMessage (_message : Str) (outcome : ChatOutcome) (t : Transcript) :
    Transcript × Option Str :=
  match outcome with
  | .failure => (addMessage offlineText false t, none)
  | .reply true (some response) _ =>
    (addMessage response false t, some (cleanThinkingContent response))
  | .reply true none _ => (addMessage offlineText false t, none)
  | .reply false _ _ => (addMessage appErrorText false t, none)

/-! ## Status poller (`chat.js`, lines 129-156) -/

/-- The fields of the body of `/api/v1/models` the poller reads. -/
structure ModelsData where
  using_openai : Bool
  openai_api_configured : Bool
  openai_model : Str
  deriving DecidableEq, Repr

/-- What `fetch('/api/v1/models')` gives: `networkFailure` when the promise
rejects; otherwise `response.ok` and the parsed body (`none` when
`response.json()` rejects). -/
inductive StatusOutcome
  | networkFailure
  | response (ok : Bool) (body : Option ModelsData)
  deriving DecidableEq, Repr

/-- The element `.status-indicator`: its `innerHTML` and whether its class
list holds `online` and `offline`. -/
structure Indicator where
  innerHTML : Str
  classOnline : Bool
  classOffline : Bool
  deriving DecidableEq, Repr

/-- The indicator is in the offline state: class `offline` set, class `online`
removed. -/
def Indicator.showsOffline (i : Indicator) : Bool := i.classOffline && !i.classOnline

/-- Lines 138-140. -/
def setOnline (model : Str) (_i : Indicator) : Indicator :=
  ⟨"<span class=\"status-dot online\"></span> Using OpenAI: ".toList ++ model, true, false⟩

/-- Lines 142-144. -/
def setNotConfigured (_i : Indicator) : Indicator :=
  ⟨"<span class=\"status-dot offline\"></span> API Not Configured".toList, false, true⟩

/-- Lines 151-153. -/
def setOffline (_i : Indicator) : Indicator :=
  ⟨"<span class=\"status-dot offline\"></span> API Offline".toList, false, true⟩

/-- The function `checkApiStatus()` of `chat.js` on the indicator (`none` when the page has
no `.status-indicator`).  The body of `if (response.ok)` has no `else`. -/
def checkApiStatus (outcome : StatusOutcome) (statusIndicator : Option Indicator) :
    Option Indicator :=
  match outcome with
  | .networkFailure => statusIndicator.map setOffline
  | .response true none => statusIndicator.map setOffline
  | .response true (some data) =>
    if data.using_openai && data.openai_api_configured then
      statusIndicator.map (setOnline data.openai_model)
    else statusIndicator.map setNotConfigured
  | .response false _ => statusIndicator

/-! ## Voice selection (`voice.js`, lines 64-106) -/

/-- A `SpeechSynthesisVoice`: the two attributes the code reads. -/
structure Voice where
  name : Str
  lang : Str
  deriving DecidableEq, Repr

/-- The list `femaleNames` of line 78. -/
def femaleNames : List Str :=
  ["samantha".toList, "lisa".toList, "victoria".toList, "karen".toList, "moira".toList,
    "zira".toList]

/-- The test of line 74 and line 80: the lowercased name includes `word` and
the language tag starts with `en`.  `toLowerCase` is the platform's
`String.prototype.toLowerCase`. -/
def nameMatch (toLowerCase : Str → Str) (word : Str) (v : Voice) : Bool :=
  includes (toLowerCase v.name) word && startsWith v.lang "en".toList

/-- The loop of lines 79-82: for each name in turn, the first voice that
matches it, stopping at the first name that has one. -/
def findByNames (toLowerCase : Str → Str) (voices : List Voice) : List Str → Option Voice
  | [] => none
  | name :: rest =>
    match voices.find? (nameMatch toLowerCase name) with
    | some v => some v
    | none => findByNames toLowerCase voices rest

/-- The local `voice` of `loadVoices` at line 95. -/
def pickVoice (toLowerCase : Str → Str) (voices : List Voice) : Option Voice :=
  let voice := voices.find? (nameMatch toLowerCase "female".toList)
  let voice := if voice.isNone then findByNames toLowerCase voices femaleNames else voice
  let voice := if voice.isNone then voices.find? (fun v => startsWith v.lang "en".toList)
    else voice
  let voice := if voice.isNone && decide (voices.length > 0) then voices.head? else voice
  voice

/-- Lowercasing of the letters `A` to `Z`, for evaluating on examples. -/
def asciiLower (s : Str) : Str := s.map Char.toLower

/-! ## Voice controller (`voice.js`) -/

/-- The keys of `STATUS_COLORS`. -/
inductive StatusColor
  | idle
  | listening
  | processing
  | speaking
  | error
  deriving DecidableEq, Repr

/-- The pending `setTimeout` callbacks of `voice.js`. -/
inductive Timer
  /-- The `setTimeout(startRecognition, 1000)` of `recognition.onend` (line 170). -/
  | recEndRestart
  /-- The `setTimeout(startRecognition, 1000)` of `utterance.onend` (line 278). -/
  | speechEndRestart
  /-- The guarded restart of the mic click (lines 306-310). -/
  | clickRestart
  /-- The delayed form submit of a final result (lines 143-145). -/
  | submit
  /-- The delayed clearing of the input field (lines 358-360). -/
  | clearInput
  deriving DecidableEq, Repr

/-- The icon in the microphone button. -/
inductive Icon
  | microphone
  | stop
  deriving DecidableEq, Repr

/-- The variables of `voice.js`, the parts of the document it writes, and what
it has asked of the speech capabilities so far. -/
structure VoiceState where
  isRecording : Bool
  isSpeaking : Bool
  continuousMode : Bool
  processingInput : Bool
  micAccessDenied : Bool
  selectedFemaleVoice : Option Voice
  /-- Value of `voiceOutputToggle.checked`. -/
  outputChecked : Bool
  /-- Value of `voiceModeToggle.checked`. -/
  modeChecked : Bool
  /-- Value of `voiceBtn.disabled`. -/
  btnDisabled : Bool
  /-- Class `recording` of the button. -/
  btnRecording : Bool
  /-- Class `speaking` of the button. -/
  btnSpeaking : Bool
  btnIcon : Icon
  statusText : Str
  statusColor : StatusColor
  /-- Value of `userInput.value`. -/
  userInput : Str
  /-- Whether `window.speechSynthesis` exists. -/
  hasSynth : Bool
  /-- Whether `window.cleanThinkingContent` exists. -/
  hasCleaner : Bool
  /-- Whether `recognition.start()` throws. -/
  startThrows : Bool
  /-- Recognition sessions created by `new SpeechRecognition()`. -/
  sessions : Nat
  /-- Calls of `recognition.start()`. -/
  startCalls : Nat
  /-- Calls of `recognition.stop()`. -/
  stopCalls : Nat
  /-- Calls of `synth.cancel()`. -/
  cancelCalls : Nat
  /-- The utterances given to `synth.speak`, oldest first. -/
  spoken : List (Str × Option Voice)
  /-- The pending timers. -/
  timers : List Timer
  deriving DecidableEq, Repr

/-- The state after the script has run: lines 34-40, the two check boxes of
lines 20 and 24, and the status of line 393. -/
def VoiceState.init : VoiceState where
  isRecording := false
  isSpeaking := false
  continuousMode := false
  processingInput := false
  micAccessDenied := false
  selectedFemaleVoice := none
  outputChecked := true
  modeChecked := false
  btnDisabled := false
  btnRecording := false
  btnSpeaking := false
  btnIcon := Icon.microphone
  statusText := "Click microphone to speak".toList
  statusColor := StatusColor.idle
  userInput := []
  hasSynth := true
  hasCleaner := true
  startThrows := false
  sessions := 0
  startCalls := 0
  stopCalls := 0
  cancelCalls := 0
  spoken := []
  timers := []

/-- The function `updateVoiceStatus(message, color)`. -/
def updateVoiceStatus (message : Str) (color : StatusColor) (s : VoiceState) : VoiceState :=
  { s with statusText := message, statusColor := color }

/-- The function `startRecognition()` (lines 197-213); `setupRecognition` creates the
session. -/
def startRecognition (s : VoiceState) : VoiceState :=
  if s.isRecording then s
  else if s.micAccessDenied then
    updateVoiceStatus
      "Microphone access denied. Please allow microphone access and reload the page.".toList
      StatusColor.error s
  else
    let s := { s with sessions := s.sessions + 1 }
    let s := { s with startCalls := s.startCalls + 1 }
    if s.startThrows then
      updateVoiceStatus "Failed to start voice recognition. Please try again.".toList
        StatusColor.error s
    else s

/-- The function `stopRecognition()` (lines 216-228). -/
def stopRecognition (s : VoiceState) : VoiceState :=
  if !s.isRecording then s
  else
    { s with stopCalls := s.stopCalls + 1, isRecording := false, btnRecording := false,
             btnIcon := Icon.microphone }

/-- The function `stopSpeaking()` (lines 231-238). -/
def stopSpeaking (s : VoiceState) : VoiceState :=
  if !s.hasSynth || !s.isSpeaking then s
  else { s with cancelCalls := s.cancelCalls + 1, isSpeaking := false, btnSpeaking := false }

/-- The function `speakMessage(message)` (lines 241-294), up to `synth.speak`. -/
def speakMessage (message : Str) (s : VoiceState) : VoiceState :=
  if !s.hasSynth || !s.outputChecked then s
  else
    let s := stopSpeaking s
    let message := if s.hasCleaner then cleanThinkingContent message else message
    let s := { s with isSpeaking := true, btnSpeaking := true }
    let s := updateVoiceStatus "Speaking...".toList StatusColor.speaking s
    { s with spoken := s.spoken ++ [(message, s.selectedFemaleVoice)] }

/-- The handler `utterance.onend` (lines 270-282). -/
def utteranceOnend (s : VoiceState) : VoiceState :=
  let s := { s with isSpeaking := false, btnSpeaking := false, processingInput := false }
  if s.continuousMode && !s.isRecording then
    { s with timers := s.timers ++ [Timer.speechEndRestart] }
  else updateVoiceStatus "Click microphone to speak".toList StatusColor.idle s

/-- The handler `utterance.onerror` (lines 285-290). -/
def utteranceOnerror (s : VoiceState) : VoiceState :=
  { s with isSpeaking := false, btnSpeaking := false, processingInput := false }

/-- The handler `recognition.onstart` (lines 123-129). -/
def recognitionOnstart (s : VoiceState) : VoiceState :=
  let s := { s with isRecording := true, btnRecording := true, btnIcon := Icon.stop }
  updateVoiceStatus "Listening...".toList StatusColor.listening s

/-- The handler `recognition.onresult` (lines 131-147): `transcript` is the
joined text of the results, `isFinal` is `event.results[0].isFinal`. -/
def recognitionOnresult (transcript : Str) (isFinal : Bool) (s : VoiceState) : VoiceState :=
  let s := { s with userInput := transcript }
  if isFinal then
    let s := updateVoiceStatus ("Recognized: \"".toList ++ transcript ++ "\"".toList)
      StatusColor.processing s
    let s := { s with processingInput := true }
    { s with timers := s.timers ++ [Timer.submit] }
  else s

/-- The handler `recognition.onerror` (lines 149-160). -/
def recognitionOnerror (error : Str) (s : VoiceState) : VoiceState :=
  let s :=
    if error = "not-allowed".toList then
      let s := { s with micAccessDenied := true }
      updateVoiceStatus "Microphone access denied. Please allow microphone access.".toList
        StatusColor.error s
    else
      updateVoiceStatus ("Error: ".toList ++ error ++ ". Try again.".toList) StatusColor.error s
  stopRecognition s

/-- The handler `recognition.onend` (lines 162-174). -/
def recognitionOnend (s : VoiceState) : VoiceState :=
  let s := { s with isRecording := false, btnRecording := false, btnIcon := Icon.microphone }
  if s.continuousMode && !s.processingInput && !s.isSpeaking && !s.micAccessDenied then
    { s with timers := s.timers ++ [Timer.recEndRestart] }
  else if !s.processingInput && !s.continuousMode && !s.isSpeaking then
    updateVoiceStatus "Click microphone to speak".toList StatusColor.idle s
  else s

/-- The click handler of the microphone button (lines 297-327). -/
def micClick (s : VoiceState) : VoiceState :=
  if s.btnDisabled then s
  else if s.isSpeaking then
    let s := stopSpeaking s
    let s := updateVoiceStatus "Speech stopped".toList StatusColor.idle s
    { s with timers := s.timers ++ [Timer.clickRestart] }
  else if s.isRecording then
    let s := stopRecognition s
    if s.continuousMode then { s with continuousMode := false, modeChecked := false } else s
  else startRecognition s

/-- The change handler of the continuous-mode check box (lines 330-348), the
box now showing `checked`. -/
def modeChange (checked : Bool) (s : VoiceState) : VoiceState :=
  let s := { s with modeChecked := checked }
  let s := { s with continuousMode := s.modeChecked }
  if s.continuousMode then
    let s := updateVoiceStatus "Continuous voice mode enabled".toList StatusColor.listening s
    if !s.isRecording && !s.isSpeaking then startRecognition s else s
  else
    let s := updateVoiceStatus "Click microphone to speak".toList StatusColor.idle s
    if s.isRecording then stopRecognition s else s

/-- The submit handler of `voice.js` (lines 351-361). -/
def formSubmit (s : VoiceState) : VoiceState :=
  let s := if s.isRecording then stopRecognition s else s
  { s with timers := s.timers ++ [Timer.clearInput] }

/-- The callback of a timer. -/
def timerCallback (t : Timer) (s : VoiceState) : VoiceState :=
  match t with
  | .recEndRestart => startRecognition s
  | .speechEndRestart => startRecognition s
  | .clickRestart => if !s.isRecording && !s.isSpeaking then startRecognition s else s
  | .submit => formSubmit s
  | .clearInput => { s with userInput := [] }

/-- The events of the voice state machine. -/
inductive Event
  /-- Click on the microphone button. -/
  | micClick
  /-- The continuous-mode box is changed to `checked`. -/
  | modeChange (checked : Bool)
  /-- The voice-output box is changed to `checked` (it has no handler). -/
  | outputChange (checked : Bool)
  /-- The form is submitted by the user. -/
  | formSubmit
  /-- An assistant bubble with this displayed text is appended: the mutation
  observer of lines 364-383 calls `speakMessage`. -/
  | assistantMessage (text : Str)
  | recognitionOnstart
  | recognitionOnresult (transcript : Str) (isFinal : Bool)
  | recognitionOnerror (error : Str)
  | recognitionOnend
  | utteranceOnend
  | utteranceOnerror
  /-- A pending timer fires. -/
  | timerFire (t : Timer)
  deriving DecidableEq, Repr

/-- One event: its handler runs to completion.  A timer fires only when it is
pending, and is then no longer pending. -/
def step (s : VoiceState) : Event → VoiceState
  | .micClick => micClick s
  | .modeChange checked => modeChange checked s
  | .outputChange checked => { s with outputChecked := checked }
  | .formSubmit => formSubmit s
  | .assistantMessage text => speakMessage text s
  | .recognitionOnstart => recognitionOnstart s
  | .recognitionOnresult transcript isFinal => recognitionOnresult transcript isFinal s
  | .recognitionOnerror error => recognitionOnerror error s
  | .recognitionOnend => recognitionOnend s
  | .utteranceOnend => utteranceOnend s
  | .utteranceOnerror => utteranceOnerror s
  | .timerFire t =>
    if t ∈ s.timers then timerCallback t { s with timers := s.timers.erase t } else s

/-- The state after a sequence of events. -/
def run (s : VoiceState) (events : List Event) : VoiceState := events.foldl step s

/-- The function `loadVoices()` (lines 64-106) on the voices `synth.getVoices()` returns. -/
def loadVoices (toLowerCase : Str → Str) (voices : List Voice) (s : VoiceState) : VoiceState :=
  match pickVoice toLowerCase voices with
  | some voice =>
    { s with selectedFemaleVoice := some voice,
             statusText := "Voice ready: ".toList ++ voice.name }
  | none => s

/-! ## Restart timers and pending utterances -/

/-- Number of pending timers that restart capture: those set by
`recognition.onend`, by `utterance.onend` and by the mic click. -/
def pendingRestarts (s : VoiceState) : Nat :=
  s.timers.count Timer.recEndRestart + s.timers.count Timer.speechEndRestart +
    s.timers.count Timer.clickRestart

/-- The event is the end or the error of an utterance. -/
def Event.isUtterance : Event → Bool
  | .utteranceOnend => true
  | .utteranceOnerror => true
  | _ => false

/-- The events can occur in this order when `pending` utterances given to
`synth.speak` have not fired `onend` or `onerror` yet: the platform fires one
of the two, once, for an utterance it was given, and an event of the sequence
that runs `synth.speak` adds a pending utterance. -/
def canOccur (pending : Nat) (s : VoiceState) : List Event → Bool
  | [] => true
  | e :: rest =>
    if e.isUtterance then
      decide (0 < pending) && canOccur (pending - 1) (step s e) rest
    else
      canOccur (pending + ((step s e).spoken.length - s.spoken.length)) (step s e) rest

/-- A speech end in continuous mode while a restart set by `recognition.onend`
is still pending: continuous mode is switched on, recognition starts and ends
without a result, an assistant message is spoken and its utterance ends. -/
def speechEndAfterRecognitionEnd : List Event :=
  [Event.modeChange true, Event.recognitionOnstart, Event.recognitionOnend,
    Event.assistantMessage "Hi".toList, Event.utteranceOnend]

/-- A speech end in continuous mode after a mic click: a final result is
submitted, the reply is spoken, the mic is clicked during the speech, and the
cancelled utterance fires `onend`. -/
def speechEndAfterMicClick : List Event :=
  [Event.modeChange true, Event.recognitionOnstart,
    Event.recognitionOnresult "hello".toList true, Event.timerFire Timer.submit,
    Event.recognitionOnend, Event.assistantMessage "Hi".toList, Event.micClick,
    Event.utteranceOnend]

/-- A final result with voice output disabled while an earlier utterance is
still being spoken: recognition runs, an assistant message is spoken, voice
output is switched off, and a final result arrives. -/
def finalResultDuringSpeech : List Event :=
  [Event.modeChange true, Event.recognitionOnstart, Event.assistantMessage "Hi".toList,
    Event.outputChange false, Event.recognitionOnresult "ok".toList true]

/-- A session in continuous mode with voice output switched off from the
start, recognition running. -/
def outputOffListening : VoiceState :=
  run VoiceState.init
    [Event.outputChange false, Event.modeChange true, Event.recognitionOnstart]

/-! ## Vocabulary of the voice-selection rule -/

/-- The voice is English-tagged: its language tag starts with `en`. -/
abbrev IsEnglish (v : Voice) : Prop := "en".toList <+: v.lang

/-- The lowercased name contains `female`, and the voice is English-tagged. -/
abbrev SignalsFemale (toLowerCase : Str → Str) (v : Voice) : Prop :=
  "female".toList <:+: toLowerCase v.name ∧ IsEnglish v

/-- The lowercased name contains a name of the shortlist, and the voice is
English-tagged. -/
abbrev OnShortlist (toLowerCase : Str → Str) (v : Voice) : Prop :=
  (∃ name ∈ femaleNames, name <:+: toLowerCase v.name) ∧ IsEnglish v

/-- The voice `v` is the first voice of the list with the property `P`. -/
def IsFirst (P : Voice → Prop) (voices : List Voice) (v : Voice) : Prop :=
  ∃ pre post, voices = pre ++ v :: post ∧ P v ∧ ∀ u ∈ pre, ¬ P u

/-! ## Texts given by their spans -/

/-- The text with the spans `segs`: each pair `(a, b)` stands for the outside
text `a` followed by the span `<think>` `b` `</think>`; `tail` is the text
after the last span. -/
def withSpans : List (Str × Str) → Str → Str
  | [], tail => tail
  | (a, b) :: rest, tail => a ++ openTag ++ b ++ closeTag ++ withSpans rest tail

/-- The text outside the spans, joined in order. -/
def outsideText : List (Str × Str) → Str → Str
  | [], tail => tail
  | (a, _) :: rest, tail => a ++ outsideText rest tail

/-! ## Lemmas on the text functions -/

theorem startsWith_iff (s p : Str) : startsWith s p = true ↔ p <+: s := by
  induction s generalizing p with
  | nil => cases p <;> simp [startsWith]
  | cons c cs ih =>
    cases p with
    | nil => simp [startsWith]
    | cons d ds =>
      simp only [startsWith, Bool.and_eq_true, beq_iff_eq, ih, List.cons_prefix_cons]
      constructor
      · rintro ⟨h1, h2⟩; exact ⟨h1.symm, h2⟩
      · rintro ⟨h1, h2⟩; exact ⟨h1.symm, h2⟩

theorem includes_iff (s p : Str) : includes s p = true ↔ p <:+: s := by
  induction s with
  | nil => cases p <;> simp [includes, startsWith]
  | cons c cs ih =>
    simp only [includes, Bool.or_eq_true, ih, startsWith_iff, List.infix_cons_iff]

/-- A tag found at the start of `u ++ v` lies in `u`, or `u` is a proper
start of the tag and the rest of the tag starts `v`. -/
theorem startsWith_append (u v T : Str) (h : startsWith (u ++ v) T = true) :
    startsWith u T = true ∨ (u.length < T.length ∧ startsWith v (T.drop u.length) = true) := by
  induction u generalizing T with
  | nil =>
    cases T with
    | nil => left; rfl
    | cons d ds => right; exact ⟨by simp, by simpa using h⟩
  | cons x u ih =>
    cases T with
    | nil => left; rfl
    | cons d ds =>
      simp only [List.cons_append, startsWith, Bool.and_eq_true] at h
      rcases ih ds h.2 with h1 | ⟨h1, h2⟩
      · left; simp [startsWith, h.1, h1]
      · right; exact ⟨by simpa using h1, by simpa using h2⟩

/-- The tag `<think>` cannot start inside a non-empty `u` and run over into a text that
begins with `<`. -/
theorem openTag_no_straddle (x : Char) (u r : Str)
    (h : startsWith (x :: u ++ '<' :: r) openTag = true) :
    startsWith (x :: u) openTag = true := by
  rcases startsWith_append (x :: u) ('<' :: r) openTag h with h1 | ⟨h1, h2⟩
  · exact h1
  · exfalso
    simp only [openTag, List.length_cons, List.length_nil] at h1
    have hk : u.length < 6 := by omega
    simp only [List.length_cons] at h2
    generalize u.length = k at hk h2
    interval_cases k <;> simp [openTag, startsWith] at h2

/-- The tag `</think>` cannot start inside a non-empty `u` and run over into a text
that begins with `<`. -/
theorem closeTag_no_straddle (x : Char) (u r : Str)
    (h : startsWith (x :: u ++ '<' :: r) closeTag = true) :
    startsWith (x :: u) closeTag = true := by
  rcases startsWith_append (x :: u) ('<' :: r) closeTag h with h1 | ⟨h1, h2⟩
  · exact h1
  · exfalso
    simp only [closeTag, List.length_cons, List.length_nil] at h1
    have hk : u.length < 7 := by omega
    simp only [List.length_cons] at h2
    generalize u.length = k at hk h2
    interval_cases k <;> simp [closeTag, startsWith] at h2

theorem indexOfClose_eq_none (s : Str) : indexOfClose s = none ↔ ¬ closeTag <:+: s := by
  induction s with
  | nil => simp [indexOfClose, closeTag]
  | cons c cs ih =>
    rw [indexOfClose, List.infix_cons_iff]
    by_cases h : startsWith (c :: cs) closeTag = true
    · simp [h, (startsWith_iff _ _).1 h]
    · have h' : ¬ closeTag <+: c :: cs := fun hp => h ((startsWith_iff _ _).2 hp)
      simp [h, h', ih]

theorem indexOfClose_some (s : Str) (n : Nat) (h : indexOfClose s = some n) :
    ∃ b c, s = b ++ closeTag ++ c ∧ b.length = n := by
  induction s generalizing n with
  | nil => simp [indexOfClose] at h
  | cons x xs ih =>
    rw [indexOfClose] at h
    by_cases hs : startsWith (x :: xs) closeTag = true
    · rw [if_pos hs] at h
      obtain ⟨c, hc⟩ := (startsWith_iff _ _).1 hs
      refine ⟨[], c, by simpa using hc.symm, ?_⟩
      simpa using h
    · rw [if_neg hs] at h
      cases hi : indexOfClose xs with
      | none => simp [hi] at h
      | some m =>
        rw [hi] at h
        obtain ⟨b, c, hbc, hlen⟩ := ih m hi
        refine ⟨x :: b, c, by simp [hbc], ?_⟩
        simp only [Option.map_some', Option.some.injEq] at h
        simp [hlen, h]

/-- The lazy match stops at the first `</think>`: after a text `b` without
`</think>` it consumes exactly `b`. -/
theorem indexOfClose_append (b c : Str) (hb : ¬ closeTag <:+: b) :
    indexOfClose (b ++ closeTag ++ c) = some b.length := by
  induction b with
  | nil => simp [indexOfClose, closeTag, startsWith]
  | cons x u ih =>
    have hu : ¬ closeTag <:+: u := fun h => hb (List.infix_cons_iff.2 (Or.inr h))
    have hx : ¬ startsWith (x :: u) closeTag = true := fun h =>
      hb ((startsWith_iff _ _).1 h).isInfix
    have hs : ¬ startsWith (x :: u ++ closeTag ++ c) closeTag = true := by
      intro h
      apply hx
      apply closeTag_no_straddle x u (['/', 't', 'h', 'i', 'n', 'k', '>'] ++ c)
      simpa [closeTag] using h
    have e : x :: u ++ closeTag ++ c = x :: (u ++ closeTag ++ c) := by simp
    rw [e] at hs ⊢
    rw [indexOfClose, if_neg hs, ih hu]
    simp

theorem stripFrom_skip (k : Nat) (s : Str) : stripFrom k s = stripFrom 0 (s.drop k) := by
  induction s generalizing k with
  | nil => cases k <;> simp [stripFrom]
  | cons x xs ih =>
    cases k with
    | zero => simp
    | succ k => rw [stripFrom, List.drop_succ_cons]; exact ih k

theorem stripFrom_sublist (k : Nat) (s : Str) : (stripFrom k s).Sublist s := by
  induction s generalizing k with
  | nil => cases k <;> simp [stripFrom]
  | cons x xs ih =>
    cases k with
    | succ k => rw [stripFrom]; exact (ih k).cons x
    | zero =>
      rw [stripFrom]
      split
      · split
        · exact (ih _).cons x
        · exact (ih 0).cons₂ x
      · exact (ih 0).cons₂ x

/-- The two ways the scan treats a position outside a match. -/
theorem stripFrom_cons_cases (x : Char) (xs : Str) :
    (∃ n, startsWith (x :: xs) openTag = true ∧ indexOfClose ((x :: xs).drop 7) = some n ∧
        stripFrom 0 (x :: xs) = stripFrom (n + 14) xs) ∨
    ((startsWith (x :: xs) openTag = false ∨ indexOfClose ((x :: xs).drop 7) = none) ∧
        stripFrom 0 (x :: xs) = x :: stripFrom 0 xs) := by
  rw [stripFrom]
  by_cases h : startsWith (x :: xs) openTag = true
  · cases hi : indexOfClose ((x :: xs).drop 7) with
    | none => right; simp [h]
    | some n => left; exact ⟨n, h, rfl, by simp [h]⟩
  · right
    simp only [Bool.not_eq_true] at h
    simp [h]

/-- One complete span at the scan position is dropped, up to and including the
first `</think>`. -/
theorem stripFrom_span (b c : Str) (hb : ¬ closeTag <:+: b) :
    stripFrom 0 (openTag ++ b ++ closeTag ++ c) = stripFrom 0 c := by
  have e : openTag ++ b ++ closeTag ++ c
      = '<' :: (['t', 'h', 'i', 'n', 'k', '>'] ++ (b ++ closeTag ++ c)) := by
    simp [openTag]
  rw [e, stripFrom]
  have hs : startsWith ('<' :: (['t', 'h', 'i', 'n', 'k', '>'] ++ (b ++ closeTag ++ c))) openTag
      = true := by
    simp [openTag, startsWith]
  have hd : List.drop 7 ('<' :: (['t', 'h', 'i', 'n', 'k', '>'] ++ (b ++ closeTag ++ c)))
      = b ++ closeTag ++ c := by
    simp
  rw [if_pos hs, hd, indexOfClose_append b c hb]
  simp only
  rw [stripFrom_skip]
  congr 1
  have hl : (['t', 'h', 'i', 'n', 'k', '>'] ++ b ++ closeTag : Str).length = b.length + 14 := by
    simp [closeTag]
  have e2 : (['t', 'h', 'i', 'n', 'k', '>'] ++ (b ++ closeTag ++ c) : Str)
      = (['t', 'h', 'i', 'n', 'k', '>'] ++ b ++ closeTag) ++ c := by
    simp
  rw [e2, ← hl, List.drop_left]

/-- Text without `<think>` in front of the end of the text or of a `<` is kept
as it is. -/
theorem stripFrom_keep (a r : Str) (ha : ¬ openTag <:+: a)
    (hr : r = [] ∨ ∃ r', r = '<' :: r') :
    stripFrom 0 (a ++ r) = a ++ stripFrom 0 r := by
  induction a with
  | nil => simp
  | cons x u ih =>
    have hu : ¬ openTag <:+: u := fun h => ha (List.infix_cons_iff.2 (Or.inr h))
    have hx : ¬ startsWith (x :: u) openTag = true := fun h =>
      ha ((startsWith_iff _ _).1 h).isInfix
    have hs : startsWith (x :: (u ++ r)) openTag = false := by
      rw [← Bool.not_eq_true]
      intro h
      apply hx
      rcases hr with rfl | ⟨r', rfl⟩
      · simpa using h
      · exact openTag_no_straddle x u r' (by simpa using h)
    rw [List.cons_append, stripFrom, hs]
    simp [ih hu]

theorem hasSpan_of_cons (x : Char) (xs : Str) (h : HasSpan xs) : HasSpan (x :: xs) := by
  obtain ⟨a, b, c, rfl⟩ := h
  exact ⟨x :: a, b, c, by simp⟩

/-- A text with a span in which the expression does not match at the first
position has its span further on. -/
theorem hasSpan_tail (x : Char) (xs : Str) (h : HasSpan (x :: xs))
    (hno : startsWith (x :: xs) openTag = false ∨ indexOfClose ((x :: xs).drop 7) = none) :
    HasSpan xs := by
  obtain ⟨a, b, c, e⟩ := h
  cases a with
  | nil =>
    exfalso
    have e' : x :: xs = '<' :: (['t', 'h', 'i', 'n', 'k', '>'] ++ (b ++ closeTag ++ c)) := by
      rw [e]; simp [openTag]
    rcases hno with h1 | h1
    · rw [e'] at h1
      simp [openTag, startsWith] at h1
    · rw [e'] at h1
      have hd : List.drop 7 ('<' :: (['t', 'h', 'i', 'n', 'k', '>'] ++ (b ++ closeTag ++ c)))
          = b ++ closeTag ++ c := by
        simp
      rw [hd, indexOfClose_eq_none] at h1
      exact h1 ⟨b, c, rfl⟩
  | cons y a =>
    simp only [List.cons_append, List.cons.injEq] at e
    exact ⟨a, b, c, e.2⟩

theorem hasSpan_of_match (x : Char) (xs : Str) (n : Nat)
    (h1 : startsWith (x :: xs) openTag = true)
    (h2 : indexOfClose ((x :: xs).drop 7) = some n) : HasSpan (x :: xs) := by
  obtain ⟨t, ht⟩ := (startsWith_iff _ _).1 h1
  obtain ⟨b, c, hbc, _⟩ := indexOfClose_some _ _ h2
  have hd : (x :: xs).drop 7 = t := by
    rw [← ht]
    exact List.drop_left openTag t
  rw [hd] at hbc
  exact ⟨[], b, c, by rw [← ht, hbc]; simp⟩

/-- A text with a span loses characters in the scan. -/
theorem stripThink_length_lt (t : Str) (h : HasSpan t) :
    (stripThink t).length < t.length := by
  unfold stripThink
  induction t with
  | nil =>
    obtain ⟨a, b, c, e⟩ := h
    have := congrArg List.length e
    simp [openTag] at this
    omega
  | cons x xs ih =>
    rcases stripFrom_cons_cases x xs with ⟨n, _, _, e⟩ | ⟨hno, e⟩
    · rw [e]
      have := (stripFrom_sublist (n + 14) xs).length_le
      simp only [List.length_cons]
      omega
    · rw [e]
      have := ih (hasSpan_tail x xs h hno)
      simp only [List.length_cons]
      omega

/-- A text without a span is left as it is by the scan. -/
theorem stripThink_of_not_hasSpan (t : Str) (h : ¬ HasSpan t) : stripThink t = t := by
  unfold stripThink
  induction t with
  | nil => rfl
  | cons x xs ih =>
    rcases stripFrom_cons_cases x xs with ⟨n, h1, h2, _⟩ | ⟨_, e⟩
    · exact absurd (hasSpan_of_match x xs n h1 h2) h
    · rw [e, ih (fun hx => h (hasSpan_of_cons x xs hx))]

theorem stripThink_eq_self_iff (t : Str) : stripThink t = t ↔ ¬ HasSpan t := by
  constructor
  · intro e hs
    have := stripThink_length_lt t hs
    rw [e] at this
    exact lt_irrefl _ this
  · exact stripThink_of_not_hasSpan t

theorem trim_within (s : Str) : trim s <:+: s :=
  (List.rdropWhile_prefix isWhiteSpace _).isInfix.trans
    (List.dropWhile_suffix isWhiteSpace).isInfix

theorem trim_trim (s : Str) : trim (trim s) = trim s := by
  unfold trim
  have h1 : List.dropWhile isWhiteSpace
      ((List.dropWhile isWhiteSpace s).rdropWhile isWhiteSpace)
      = (List.dropWhile isWhiteSpace s).rdropWhile isWhiteSpace := by
    rw [List.dropWhile_eq_self_iff]
    intro hl
    obtain ⟨t, ht⟩ := List.rdropWhile_prefix isWhiteSpace (List.dropWhile isWhiteSpace s)
    have hpos : 0 < (List.dropWhile isWhiteSpace s).length := by
      have := congrArg List.length ht
      simp only [List.length_append] at this
      omega
    have h0 := List.dropWhile_get_zero_not isWhiteSpace s hpos
    have e : (List.rdropWhile isWhiteSpace (List.dropWhile isWhiteSpace s)).get ⟨0, hl⟩
        = (List.dropWhile isWhiteSpace s).get ⟨0, hpos⟩ := by
      simp only [List.get_eq_getElem]
      exact List.IsPrefix.getElem ⟨t, ht⟩ hl
    rw [e]
    exact h0
  rw [h1, List.rdropWhile_idempotent]

theorem not_hasSpan_of_no_open (t : Str) (h : ¬ openTag <:+: t) : ¬ HasSpan t := by
  rintro ⟨a, b, c, rfl⟩
  exact h ⟨a, b ++ closeTag ++ c, by simp⟩

/-- The scan of a text given by its spans leaves the outside text. -/
theorem stripThink_withSpans (segs : List (Str × Str)) (tail : Str)
    (hs : ∀ p ∈ segs, ¬ openTag <:+: p.1 ∧ ¬ closeTag <:+: p.2)
    (ht : ¬ openTag <:+: tail) :
    stripThink (withSpans segs tail) = outsideText segs tail := by
  induction segs with
  | nil => exact stripThink_of_not_hasSpan tail (not_hasSpan_of_no_open tail ht)
  | cons p rest ih =>
    obtain ⟨a, b⟩ := p
    have hab := hs (a, b) (List.mem_cons_self _ _)
    have ih' := ih (fun q hq => hs q (List.mem_cons_of_mem _ hq))
    unfold stripThink at ih' ⊢
    have e : withSpans ((a, b) :: rest) tail
        = a ++ (openTag ++ b ++ closeTag ++ withSpans rest tail) := by
      simp [withSpans]
    rw [e, stripFrom_keep a _ hab.1 (Or.inr ⟨_, by simp [openTag]; rfl⟩),
      stripFrom_span b _ hab.2, ih']
    rfl

/-! ## Lemmas on the voice selection -/

theorem nameMatch_iff (lower : Str → Str) (word : Str) (v : Voice) :
    nameMatch lower word v = true ↔ word <:+: lower v.name ∧ IsEnglish v := by
  simp [nameMatch, includes_iff, startsWith_iff, IsEnglish]

theorem find?_isFirst (p : Voice → Bool) (P : Voice → Prop) (hp : ∀ v, p v = true ↔ P v)
    (voices : List Voice) (v : Voice) (h : voices.find? p = some v) : IsFirst P voices v := by
  obtain ⟨hv, pre, post, e, hpre⟩ := List.find?_eq_some.1 h
  refine ⟨pre, post, e, (hp v).1 hv, ?_⟩
  intro u hu hP
  have := hpre u hu
  rw [(hp u).2 hP] at this
  simp at this

theorem IsFirst.mem {P : Voice → Prop} {voices : List Voice} {v : Voice}
    (h : IsFirst P voices v) : v ∈ voices := by
  obtain ⟨pre, post, e, -, -⟩ := h
  rw [e]; simp

theorem IsFirst.holds {P : Voice → Prop} {voices : List Voice} {v : Voice}
    (h : IsFirst P voices v) : P v := by
  obtain ⟨pre, post, -, hv, -⟩ := h
  exact hv

theorem findByNames_some (lower : Str → Str) (voices : List Voice) (names : List Str)
    (v : Voice) (h : findByNames lower voices names = some v) :
    v ∈ voices ∧ ∃ name ∈ names, nameMatch lower name v = true := by
  induction names with
  | nil => simp [findByNames] at h
  | cons name rest ih =>
    rw [findByNames] at h
    cases hf : voices.find? (nameMatch lower name) with
    | some w =>
      rw [hf] at h
      simp only [Option.some.injEq] at h
      subst h
      exact ⟨List.mem_of_find?_eq_some hf, name, List.mem_cons_self _ _, List.find?_some hf⟩
    | none =>
      rw [hf] at h
      obtain ⟨h1, n, hn, h2⟩ := ih h
      exact ⟨h1, n, List.mem_cons_of_mem _ hn, h2⟩

theorem findByNames_none (lower : Str → Str) (voices : List Voice) (names : List Str)
    (h : findByNames lower voices names = none) :
    ∀ name ∈ names, ∀ v ∈ voices, ¬ nameMatch lower name v = true := by
  induction names with
  | nil => simp
  | cons name rest ih =>
    rw [findByNames] at h
    cases hf : voices.find? (nameMatch lower name) with
    | some w => rw [hf] at h; simp at h
    | none =>
      rw [hf] at h
      intro n hn v hv
      rcases List.mem_cons.1 hn with rfl | hn
      · exact List.find?_eq_none.1 hf v hv
      · exact ih h n hn v hv

/-- The four ways `loadVoices` arrives at its voice. -/
theorem pickVoice_cases (lower : Str → Str) (voices : List Voice) :
    (∃ v, voices.find? (nameMatch lower "female".toList) = some v ∧
        pickVoice lower voices = some v) ∨
    (voices.find? (nameMatch lower "female".toList) = none ∧
      ∃ v, findByNames lower voices femaleNames = some v ∧ pickVoice lower voices = some v) ∨
    (voices.find? (nameMatch lower "female".toList) = none ∧
      findByNames lower voices femaleNames = none ∧
      ∃ v, voices.find? (fun v => startsWith v.lang "en".toList) = some v ∧
        pickVoice lower voices = some v) ∨
    (voices.find? (nameMatch lower "female".toList) = none ∧
      findByNames lower voices femaleNames = none ∧
      voices.find? (fun v => startsWith v.lang "en".toList) = none ∧
      pickVoice lower voices = voices.head?) := by
  unfold pickVoice
  cases h1 : voices.find? (nameMatch lower "female".toList) with
  | some v => left; exact ⟨v, rfl, by simp⟩
  | none =>
    right
    cases h2 : findByNames lower voices femaleNames with
    | some v => left; exact ⟨rfl, v, rfl, by simp [h2]⟩
    | none =>
      right
      cases h3 : voices.find? (fun v => startsWith v.lang "en".toList) with
      | some v => left; exact ⟨rfl, rfl, v, rfl, by simp [h2, h3]⟩
      | none =>
        right
        refine ⟨rfl, rfl, rfl, ?_⟩
        cases voices <;> simp [h2, h3]

/-! ## Lemmas on the voice controller -/

/-- Once access is denied, an event leaves it denied and starts no
recognition. -/
theorem step_denied (s : VoiceState) (e : Event) (h : s.micAccessDenied = true) :
    (step s e).micAccessDenied = true ∧ (step s e).sessions = s.sessions ∧
      (step s e).startCalls = s.startCalls := by
  cases e with
  | timerFire t =>
    cases t <;>
      simp only [step, timerCallback, startRecognition, formSubmit, stopRecognition,
        updateVoiceStatus] <;>
      split_ifs <;> simp [h]
  | _ =>
    simp only [step, micClick, modeChange, formSubmit, speakMessage, recognitionOnstart,
      recognitionOnresult, recognitionOnerror, recognitionOnend, utteranceOnend,
      utteranceOnerror, startRecognition, stopRecognition, stopSpeaking, updateVoiceStatus]
    (try split_ifs) <;> simp [h]

theorem run_denied (s : VoiceState) (events : List Event) (h : s.micAccessDenied = true) :
    (run s events).micAccessDenied = true ∧ (run s events).sessions = s.sessions ∧
      (run s events).startCalls = s.startCalls := by
  induction events generalizing s with
  | nil => exact ⟨h, rfl, rfl⟩
  | cons e rest ih =>
    obtain ⟨h1, h2, h3⟩ := step_denied s e h
    obtain ⟨i1, i2, i3⟩ := ih (step s e) h1
    exact ⟨i1, i2.trans h2, i3.trans h3⟩

theorem startRecognition_sessions (s : VoiceState) :
    (startRecognition s).sessions ≤ s.sessions + 1 ∧
      (startRecognition s).timers = s.timers := by
  simp only [startRecognition, updateVoiceStatus]
  split_ifs <;> simp

/-- A timer that fires creates a session only by using up a pending restart
timer. -/
theorem timerFire_bound (s : VoiceState) (t : Timer) :
    (step s (Event.timerFire t)).sessions + pendingRestarts (step s (Event.timerFire t))
      ≤ s.sessions + pendingRestarts s := by
  by_cases hmem : t ∈ s.timers
  · have hpos : 0 < s.timers.count t := List.count_pos_iff.2 hmem
    cases t
    · -- restart set by `recognition.onend`
      obtain ⟨h1, h2⟩ := startRecognition_sessions
        { s with timers := s.timers.erase Timer.recEndRestart }
      simp only [step, if_pos hmem, timerCallback, pendingRestarts, h2]
      simp only [List.count_erase_self]
      rw [List.count_erase_of_ne (by decide), List.count_erase_of_ne (by decide)]
      simp only at h1
      omega
    · -- restart set by `utterance.onend`
      obtain ⟨h1, h2⟩ := startRecognition_sessions
        { s with timers := s.timers.erase Timer.speechEndRestart }
      simp only [step, if_pos hmem, timerCallback, pendingRestarts, h2]
      simp only [List.count_erase_self]
      rw [List.count_erase_of_ne (by decide), List.count_erase_of_ne (by decide)]
      simp only at h1
      omega
    · -- restart set by the mic click
      obtain ⟨h1, h2⟩ := startRecognition_sessions
        { s with timers := s.timers.erase Timer.clickRestart }
      simp only [step, if_pos hmem, timerCallback, pendingRestarts]
      split_ifs
      · simp only [h2, List.count_erase_self]
        rw [List.count_erase_of_ne (by decide), List.count_erase_of_ne (by decide)]
        simp only at h1
        omega
      · simp only [List.count_erase_self]
        rw [List.count_erase_of_ne (by decide), List.count_erase_of_ne (by decide)]
        omega
    · -- delayed submit
      simp only [step, if_pos hmem, timerCallback, formSubmit, stopRecognition,
        pendingRestarts]
      split_ifs <;>
        simp [List.count_erase_of_ne, List.count_append, List.count_singleton]
    · -- clearing of the input field
      simp only [step, if_pos hmem, timerCallback, pendingRestarts]
      simp [List.count_erase_of_ne]
  · simp only [step, if_neg hmem]
    exact le_refl _

theorem run_timers_bound (s : VoiceState) (ts : List Timer) :
    (run s (ts.map Event.timerFire)).sessions + pendingRestarts (run s (ts.map Event.timerFire))
      ≤ s.sessions + pendingRestarts s := by
  induction ts generalizing s with
  | nil => exact le_refl _
  | cons t rest ih =>
    exact (ih (step s (Event.timerFire t))).trans (timerFire_bound s t)

/-- What each event does to `processingInput`. -/
theorem step_processingInput (s : VoiceState) (e : Event) :
    (step s e).processingInput =
      match e with
      | .recognitionOnresult _ true => true
      | .utteranceOnend => false
      | .utteranceOnerror => false
      | _ => s.processingInput := by
  cases e with
  | timerFire t =>
    cases t <;>
      simp only [step, timerCallback, startRecognition, formSubmit, stopRecognition,
        updateVoiceStatus] <;>
      split_ifs <;> rfl
  | recognitionOnresult transcript isFinal =>
    cases isFinal <;> simp [step, recognitionOnresult, updateVoiceStatus]
  | _ =>
    simp only [step, micClick, modeChange, formSubmit, speakMessage, recognitionOnstart,
      recognitionOnerror, recognitionOnend, utteranceOnend, utteranceOnerror,
      startRecognition, stopRecognition, stopSpeaking, updateVoiceStatus]
    all_goals (try split_ifs)
    all_goals rfl

/-- With voice output disabled, an event other than the end or error of an
utterance and the enabling of voice output creates no utterance and keeps
`processingInput` set. -/
theorem step_output_disabled (u : VoiceState) (e : Event)
    (hout : u.outputChecked = false) (hp : u.processingInput = true)
    (he : e.isUtterance = false) (hne : e ≠ Event.outputChange true) :
    (step u e).outputChecked = false ∧ (step u e).processingInput = true ∧
      (step u e).spoken = u.spoken := by
  refine ⟨?_, ?_, ?_⟩
  · cases e with
    | timerFire t =>
      cases t <;>
        simp only [step, timerCallback, startRecognition, formSubmit, stopRecognition,
          updateVoiceStatus] <;>
        split_ifs <;> simp [hout]
    | outputChange checked =>
      cases checked
      · rfl
      · exact absurd rfl hne
    | _ =>
      simp only [step, micClick, modeChange, formSubmit, speakMessage, recognitionOnstart,
        recognitionOnresult, recognitionOnerror, recognitionOnend, utteranceOnend,
        utteranceOnerror, startRecognition, stopRecognition, stopSpeaking, updateVoiceStatus]
      (try split_ifs) <;> simp [hout]
  · rw [step_processingInput]
    cases e with
    | recognitionOnresult transcript isFinal => cases isFinal <;> simp [hp]
    | utteranceOnend => simp [Event.isUtterance] at he
    | utteranceOnerror => simp [Event.isUtterance] at he
    | _ => simp [hp]
  · cases e with
    | timerFire t =>
      cases t <;>
        simp only [step, timerCallback, startRecognition, formSubmit, stopRecognition,
          updateVoiceStatus] <;>
        split_ifs <;> rfl
    | _ =>
      simp only [step, micClick, modeChange, formSubmit, speakMessage, recognitionOnstart,
        recognitionOnresult, recognitionOnerror, recognitionOnend, utteranceOnend,
        utteranceOnerror, startRecognition, stopRecognition, stopSpeaking, updateVoiceStatus,
        hout]
      all_goals (try split_ifs)
      all_goals (first | rfl | simp_all)

/-- With voice output disabled and no utterance pending, the events that can
occur keep `processingInput` set and create no utterance. -/
theorem run_output_disabled (u : VoiceState) (events : List Event)
    (hout : u.outputChecked = false) (hp : u.processingInput = true)
    (hstay : ∀ e ∈ events, e ≠ Event.outputChange true)
    (hcan : canOccur 0 u events = true) :
    (run u events).outputChecked = false ∧ (run u events).processingInput = true ∧
      (run u events).spoken = u.spoken := by
  induction events generalizing u with
  | nil => exact ⟨hout, hp, rfl⟩
  | cons e rest ih =>
    have he : e.isUtterance = false := by
      cases h : e.isUtterance with
      | false => rfl
      | true => simp [canOccur, h] at hcan
    obtain ⟨h1, h2, h3⟩ :=
      step_output_disabled u e hout hp he (hstay e (List.mem_cons_self _ _))
    have hcan' : canOccur 0 (step u e) rest = true := by
      simpa [canOccur, he, h3] using hcan
    obtain ⟨i1, i2, i3⟩ := ih (step u e) h1 h2
      (fun x hx => hstay x (List.mem_cons_of_mem _ hx)) hcan'
    exact ⟨i1, i2, i3.trans h3⟩

/-! ## The claims -/

/-- C1 (as stated, refuted): cleaning `<thi<think>x</think>nk>y</think>` gives
`<think>y</think>`, and cleaning that gives the empty text, so cleaning
cleaned text is not a no-op. -/
theorem C1_counterexample :
    cleanThinkingContent "<thi<think>x</think>nk>y</think>".toList = "<think>y</think>".toList ∧
    cleanThinkingContent (cleanThinkingContent "<thi<think>x</think>nk>y</think>".toList) = [] ∧
    cleanThinkingContent (cleanThinkingContent "<thi<think>x</think>nk>y</think>".toList)
      ≠ cleanThinkingContent "<thi<think>x</think>nk>y</think>".toList := by
  decide

/-- C1 (amended): cleaning already-cleaned text is a no-op exactly when the
cleaned text contains no thinking span, that is no `<think>` followed later by
`</think>`. -/
theorem C1_clean_idempotent_iff (s : Str) :
    cleanThinkingContent (cleanThinkingContent s) = cleanThinkingContent s ↔
      ¬ HasSpan (cleanThinkingContent s) := by
  constructor
  · intro e hs
    have h1 := stripThink_length_lt _ hs
    have h2 : (cleanThinkingContent (cleanThinkingContent s)).length
        ≤ (stripThink (cleanThinkingContent s)).length := (trim_within _).length_le
    rw [e] at h2
    omega
  · intro h
    unfold cleanThinkingContent at h ⊢
    rw [stripThink_of_not_hasSpan _ h, trim_trim]

/-- C2 (as stated, refuted): the text `<think>a</think></think>` contains a
thinking span, and both its cleaned text and the text displayed for it are
`</think>`. -/
theorem C2_counterexample :
    HasSpan "<think>a</think></think>".toList ∧
    closeTag <:+: cleanThinkingContent "<think>a</think></think>".toList ∧
    addMessage "<think>a</think></think>".toList false [] = [⟨Role.assistant, closeTag⟩] :=
  ⟨⟨[], ['a'], closeTag, by decide⟩, by decide, by decide⟩

/-- C2 (amended): for a text made of spans `<think>` b `</think>`, each `b`
without `</think>`, whose outside text joined in order contains neither
`<think>` nor `</think>`, the cleaned text and the displayed text are the
trimmed outside text, and contain neither delimiter. -/
theorem C2_clean_no_delimiters (segs : List (Str × Str)) (tail : Str) (t : Transcript)
    (hb : ∀ p ∈ segs, ¬ closeTag <:+: p.2)
    (ho : ¬ openTag <:+: outsideText segs tail)
    (hc : ¬ closeTag <:+: outsideText segs tail) :
    cleanThinkingContent (withSpans segs tail) = trim (outsideText segs tail) ∧
    addMessage (withSpans segs tail) false t
      = t ++ [⟨Role.assistant, cleanThinkingContent (withSpans segs tail)⟩] ∧
    ¬ openTag <:+: cleanThinkingContent (withSpans segs tail) ∧
    ¬ closeTag <:+: cleanThinkingContent (withSpans segs tail) := by
  have hparts : (∀ p ∈ segs, ¬ openTag <:+: p.1) ∧ ¬ openTag <:+: tail := by
    clear hb hc
    induction segs with
    | nil => exact ⟨by simp, ho⟩
    | cons p rest ih =>
      obtain ⟨a, b⟩ := p
      have h1 : ¬ openTag <:+: a := fun h =>
        ho (h.trans (List.prefix_append a (outsideText rest tail)).isInfix)
      have h2 : ¬ openTag <:+: outsideText rest tail := fun h =>
        ho (h.trans (List.suffix_append a (outsideText rest tail)).isInfix)
      obtain ⟨i1, i2⟩ := ih h2
      refine ⟨?_, i2⟩
      intro q hq
      rcases List.mem_cons.1 hq with rfl | hq
      · exact h1
      · exact i1 q hq
  have e : cleanThinkingContent (withSpans segs tail) = trim (outsideText segs tail) := by
    unfold cleanThinkingContent
    rw [stripThink_withSpans segs tail (fun p hp => ⟨hparts.1 p hp, hb p hp⟩) hparts.2]
  refine ⟨e, rfl, ?_, ?_⟩
  · rw [e]; exact fun h => ho (h.trans (trim_within _))
  · rw [e]; exact fun h => hc (h.trans (trim_within _))

/-- Witness of C2 (amended): two spans, the first over a line break. -/
theorem C2_clean_no_delimiters_witness :
    cleanThinkingContent
        (withSpans [(" Hi ".toList, "plan\nA".toList), ("there".toList, [])] "!\n".toList)
      = "Hi there!".toList ∧
    ¬ openTag <:+: cleanThinkingContent
        (withSpans [(" Hi ".toList, "plan\nA".toList), ("there".toList, [])] "!\n".toList) ∧
    ¬ closeTag <:+: cleanThinkingContent
        (withSpans [(" Hi ".toList, "plan\nA".toList), ("there".toList, [])] "!\n".toList) :=
  have h := C2_clean_no_delimiters
    [(" Hi ".toList, "plan\nA".toList), ("there".toList, [])] "!\n".toList []
    (by decide) (by decide) (by decide)
  ⟨h.1.trans (by decide), h.2.2.1, h.2.2.2⟩

/-- C3: on `{success: true, response: r}` with a string `r`, `sendMessage`
appends exactly one message, of role assistant, whose text is
`cleanThinkingContent(r)`, and returns that text; for `r = "Hello"` the new
message reads `Hello`. -/
theorem C3_sendMessage_success (message r : Str) (error : Option Str) (t : Transcript) :
    sendMessage message (ChatOutcome.reply true (some r) error) t
      = (t ++ [⟨Role.assistant, cleanThinkingContent r⟩], some (cleanThinkingContent r)) ∧
    (sendMessage message (ChatOutcome.reply true (some r) error) t).1.length = t.length + 1 ∧
    sendMessage message (ChatOutcome.reply true (some "Hello".toList) error) t
      = (t ++ [⟨Role.assistant, "Hello".toList⟩], some "Hello".toList) := by
  refine ⟨rfl, ?_, ?_⟩
  · simp [sendMessage, addMessage]
  · have h : cleanThinkingContent "Hello".toList = "Hello".toList := by decide
    simp only [sendMessage, addMessage, Bool.not_false, if_true, h]
    rw [← h]
    rfl

/-- C4: a failed send appends exactly one assistant message and returns
`null`: on `{success: false, error: e}` the text is the fixed application
fallback whatever `e` is, on a network failure it is the fixed offline
fallback, and the two fallback texts differ. -/
theorem C4_sendMessage_failure (message : Str) (response error : Option Str) (t : Transcript) :
    sendMessage message (ChatOutcome.reply false response error) t
      = (t ++ [⟨Role.assistant, appErrorText⟩], none) ∧
    sendMessage message ChatOutcome.failure t = (t ++ [⟨Role.assistant, offlineText⟩], none) ∧
    appErrorText ≠ offlineText := by
  have h1 : trim (stripThink appErrorText) = appErrorText := by decide
  have h2 : trim (stripThink offlineText) = offlineText := by decide
  refine ⟨?_, ?_, by decide⟩
  · simp only [sendMessage, addMessage, Bool.not_false, if_true, h1]
    rfl
  · simp only [sendMessage, addMessage, Bool.not_false, if_true, h2]
    rfl

/-- C5 (the code at the failing inputs): from the initial state, a mic click,
the start of recognition and an appended assistant message leave `isRecording`
and `isSpeaking` both true; and in continuous mode a restart timer set by
`recognition.onend` that fires after an assistant message has started speech
calls `startRecognition` while `isSpeaking` is true, creates a second
recognition session, and its `onstart` leaves both flags true. -/
theorem C5_recording_and_speaking :
    (run VoiceState.init
        [Event.micClick, Event.recognitionOnstart, Event.assistantMessage "Hi".toList]
      ).isRecording = true ∧
    (run VoiceState.init
        [Event.micClick, Event.recognitionOnstart, Event.assistantMessage "Hi".toList]
      ).isSpeaking = true ∧
    (run VoiceState.init
        [Event.modeChange true, Event.recognitionOnstart, Event.recognitionOnend,
          Event.assistantMessage "Hi".toList]).isSpeaking = true ∧
    (run VoiceState.init
        [Event.modeChange true, Event.recognitionOnstart, Event.recognitionOnend,
          Event.assistantMessage "Hi".toList]).sessions = 1 ∧
    (run VoiceState.init
        [Event.modeChange true, Event.recognitionOnstart, Event.recognitionOnend,
          Event.assistantMessage "Hi".toList, Event.timerFire Timer.recEndRestart]
      ).sessions = 2 ∧
    (run VoiceState.init
        [Event.modeChange true, Event.recognitionOnstart, Event.recognitionOnend,
          Event.assistantMessage "Hi".toList, Event.timerFire Timer.recEndRestart,
          Event.recognitionOnstart]).isRecording = true ∧
    (run VoiceState.init
        [Event.modeChange true, Event.recognitionOnstart, Event.recognitionOnend,
          Event.assistantMessage "Hi".toList, Event.timerFire Timer.recEndRestart,
          Event.recognitionOnstart]).isSpeaking = true := by
  decide

/-- C6: after `recognition.onerror` with `not-allowed`, in whatever state it
fires, `micAccessDenied` is true after every later sequence of events, no
later event creates a recognition session or calls `recognition.start`, and a
call of `startRecognition` leaves the sessions, the calls of
`recognition.start` and `isRecording` as they are. -/
theorem C6_denial_sticky (s : VoiceState) (events : List Event) :
    (run (step s (Event.recognitionOnerror "not-allowed".toList)) events).micAccessDenied
      = true ∧
    (run (step s (Event.recognitionOnerror "not-allowed".toList)) events).sessions
      = s.sessions ∧
    (run (step s (Event.recognitionOnerror "not-allowed".toList)) events).startCalls
      = s.startCalls ∧
    (startRecognition
        (run (step s (Event.recognitionOnerror "not-allowed".toList)) events)).sessions
      = (run (step s (Event.recognitionOnerror "not-allowed".toList)) events).sessions ∧
    (startRecognition
        (run (step s (Event.recognitionOnerror "not-allowed".toList)) events)).startCalls
      = (run (step s (Event.recognitionOnerror "not-allowed".toList)) events).startCalls ∧
    (startRecognition
        (run (step s (Event.recognitionOnerror "not-allowed".toList)) events)).isRecording
      = (run (step s (Event.recognitionOnerror "not-allowed".toList)) events).isRecording := by
  have h0 : (step s (Event.recognitionOnerror "not-allowed".toList)).micAccessDenied = true ∧
      (step s (Event.recognitionOnerror "not-allowed".toList)).sessions = s.sessions ∧
      (step s (Event.recognitionOnerror "not-allowed".toList)).startCalls = s.startCalls := by
    simp only [step, recognitionOnerror, stopRecognition, updateVoiceStatus]
    split_ifs <;> simp
  obtain ⟨h1, h2, h3⟩ := run_denied _ events h0.1
  refine ⟨h1, h2.trans h0.2.1, h3.trans h0.2.2, ?_, ?_, ?_⟩ <;>
    · simp only [startRecognition, updateVoiceStatus, h1]
      split_ifs <;> rfl

/-- C7 (the code at the failing input): a network failure puts the indicator
in the offline state, but a response with `ok = false` leaves the indicator as
it was: after a successful poll showed it online, a non-OK response leaves it
online, not offline. -/
theorem C7_nonOk_keeps_indicator :
    (∀ i : Indicator,
      (checkApiStatus StatusOutcome.networkFailure (some i)).map Indicator.showsOffline
        = some true) ∧
    (∀ (body : Option ModelsData) (i : Option Indicator),
      checkApiStatus (StatusOutcome.response false body) i = i) ∧
    (checkApiStatus (StatusOutcome.response false none)
        (checkApiStatus (StatusOutcome.response true (some ⟨true, true, "gpt-4o".toList⟩))
          (some ⟨[], false, false⟩))).map Indicator.showsOffline = some false := by
  refine ⟨fun i => rfl, fun body i => rfl, by decide⟩

/-- C8: the voice `loadVoices` picks is (a) the first English-tagged voice
whose lowercased name contains `female`, if there is one; else (b) an
English-tagged voice of the list whose lowercased name contains a name of the
shortlist, if there is one; else (c) the first English-tagged voice, if there
is one; else (d) the first voice of the list; it picks none exactly when the
list is empty, and a picked voice is in the list. -/
theorem C8_pickVoice (lower : Str → Str) (voices : List Voice) :
    ((∃ v ∈ voices, SignalsFemale lower v) →
      ∃ v, pickVoice lower voices = some v ∧ IsFirst (SignalsFemale lower) voices v) ∧
    ((¬ ∃ v ∈ voices, SignalsFemale lower v) → (∃ v ∈ voices, OnShortlist lower v) →
      ∃ v, pickVoice lower voices = some v ∧ v ∈ voices ∧ OnShortlist lower v) ∧
    ((¬ ∃ v ∈ voices, SignalsFemale lower v) → (¬ ∃ v ∈ voices, OnShortlist lower v) →
      (∃ v ∈ voices, IsEnglish v) →
      ∃ v, pickVoice lower voices = some v ∧ IsFirst IsEnglish voices v) ∧
    ((¬ ∃ v ∈ voices, IsEnglish v) → pickVoice lower voices = voices.head?) ∧
    (pickVoice lower voices = none ↔ voices = []) ∧
    (∀ v, pickVoice lower voices = some v → v ∈ voices) := by
  have hA : ∀ v, nameMatch lower "female".toList v = true ↔ SignalsFemale lower v :=
    fun v => nameMatch_iff lower _ v
  have hE : ∀ v : Voice, startsWith v.lang "en".toList = true ↔ IsEnglish v :=
    fun v => startsWith_iff _ _
  have hB : ∀ v, (∃ name ∈ femaleNames, nameMatch lower name v = true) ↔ OnShortlist lower v := by
    intro v
    constructor
    · rintro ⟨n, hn, h⟩
      exact ⟨⟨n, hn, ((nameMatch_iff lower n v).1 h).1⟩, ((nameMatch_iff lower n v).1 h).2⟩
    · rintro ⟨⟨n, hn, h⟩, he⟩
      exact ⟨n, hn, (nameMatch_iff lower n v).2 ⟨h, he⟩⟩
  rcases pickVoice_cases lower voices with
    ⟨v, f1, e⟩ | ⟨f1, v, f2, e⟩ | ⟨f1, f2, v, f3, e⟩ | ⟨f1, f2, f3, e⟩
  · -- a voice signalling a female voice was found
    have hfirst := find?_isFirst _ _ hA voices v f1
    have hv : SignalsFemale lower v := (hA v).1 (List.find?_some f1)
    refine ⟨fun _ => ⟨v, e, hfirst⟩, fun h => absurd ⟨v, hfirst.mem, hv⟩ h,
      fun h => absurd ⟨v, hfirst.mem, hv⟩ h, fun h => absurd ⟨v, hfirst.mem, hv.2⟩ h, ?_, ?_⟩
    · rw [e]
      constructor
      · intro h; cases h
      · intro h; rw [h] at f1; simp at f1
    · intro w hw
      rw [e] at hw
      cases hw
      exact hfirst.mem
  · -- a voice of the shortlist was found
    have hnoA : ¬ ∃ v ∈ voices, SignalsFemale lower v := by
      rintro ⟨w, hw, hs⟩
      exact List.find?_eq_none.1 f1 w hw ((hA w).2 hs)
    obtain ⟨hmem, hname⟩ := findByNames_some lower voices femaleNames v f2
    have hv : OnShortlist lower v := (hB v).1 hname
    refine ⟨fun h => absurd h hnoA, fun _ _ => ⟨v, e, hmem, hv⟩,
      fun _ h => absurd ⟨v, hmem, hv⟩ h, fun h => absurd ⟨v, hmem, hv.2⟩ h, ?_, ?_⟩
    · rw [e]
      constructor
      · intro h; cases h
      · intro h; rw [h] at hmem; simp at hmem
    · intro w hw
      rw [e] at hw
      cases hw
      exact hmem
  · -- an English-tagged voice was found
    have hnoA : ¬ ∃ v ∈ voices, SignalsFemale lower v := by
      rintro ⟨w, hw, hs⟩
      exact List.find?_eq_none.1 f1 w hw ((hA w).2 hs)
    have hnoB : ¬ ∃ v ∈ voices, OnShortlist lower v := by
      rintro ⟨w, hw, hs⟩
      obtain ⟨n, hn, h⟩ := (hB w).2 hs
      exact findByNames_none lower voices femaleNames f2 n hn w hw h
    have hfirst := find?_isFirst _ _ hE voices v f3
    have hv : IsEnglish v := hfirst.holds
    refine ⟨fun h => absurd h hnoA, fun _ h => absurd h hnoB, fun _ _ _ => ⟨v, e, hfirst⟩,
      fun h => absurd ⟨v, hfirst.mem, hv⟩ h, ?_, ?_⟩
    · rw [e]
      constructor
      · intro h; cases h
      · intro h; rw [h] at f3; simp at f3
    · intro w hw
      rw [e] at hw
      cases hw
      exact hfirst.mem
  · -- no English-tagged voice
    have hnoE : ¬ ∃ v ∈ voices, IsEnglish v := by
      rintro ⟨w, hw, hs⟩
      exact List.find?_eq_none.1 f3 w hw ((hE w).2 hs)
    refine ⟨fun ⟨w, hw, hs⟩ => absurd ⟨w, hw, hs.2⟩ hnoE,
      fun _ ⟨w, hw, hs⟩ => absurd ⟨w, hw, hs.2⟩ hnoE, fun _ _ h => absurd h hnoE,
      fun _ => e, ?_, ?_⟩
    · rw [e]; exact List.head?_eq_none_iff
    · intro w hw
      rw [e] at hw
      exact List.mem_of_mem_head? hw

/-- Witness of C8: with a male English voice, Zira and Lisa, no name contains
`female`, and the pick is a voice of the shortlist. -/
theorem C8_pickVoice_witness :
    ∃ v, pickVoice asciiLower
        [⟨"Google UK English Male".toList, "en-GB".toList⟩,
          ⟨"Microsoft Zira".toList, "en-US".toList⟩, ⟨"Lisa".toList, "en-US".toList⟩] = some v ∧
      v ∈ [(⟨"Google UK English Male".toList, "en-GB".toList⟩ : Voice),
          ⟨"Microsoft Zira".toList, "en-US".toList⟩, ⟨"Lisa".toList, "en-US".toList⟩] ∧
      OnShortlist asciiLower v :=
  (C8_pickVoice asciiLower
    [⟨"Google UK English Male".toList, "en-GB".toList⟩,
      ⟨"Microsoft Zira".toList, "en-US".toList⟩, ⟨"Lisa".toList, "en-US".toList⟩]).2.1
    (by decide) (by decide)

/-- C9: for `a` and `c` without `<think>` and `b` without `</think>`, the text
displayed for the assistant message `a <think> b </think> c` is `a ++ c`
trimmed. -/
theorem C9_display_single_span (a b c : Str) (t : Transcript)
    (ha : ¬ openTag <:+: a) (hb : ¬ closeTag <:+: b) (hc : ¬ openTag <:+: c) :
    addMessage (a ++ openTag ++ b ++ closeTag ++ c) false t
      = t ++ [⟨Role.assistant, trim (a ++ c)⟩] := by
  have h := stripThink_withSpans [(a, b)] c (by simpa using ⟨ha, hb⟩) hc
  simp only [withSpans, outsideText] at h
  simp only [addMessage, Bool.not_false, if_true, h]
  rfl

/-- Witness of C9: a span with line breaks between two pieces of text. -/
theorem C9_display_single_span_witness :
    addMessage ("  Sure. ".toList ++ openTag ++ "step 1\nstep 2\n".toList ++ closeTag
        ++ "Done.\n".toList) false []
      = [⟨Role.assistant, "Sure. Done.".toList⟩] :=
  (C9_display_single_span "  Sure. ".toList "step 1\nstep 2\n".toList "Done.\n".toList []
    (by decide) (by decide) (by decide)).trans (by decide)

/-- C10: the cleaned text is obtained from the text by deletions only: it is a
subsequence of it. -/
theorem C10_clean_sublist (s : Str) : (cleanThinkingContent s).Sublist s :=
  (trim_within _).sublist.trans (stripFrom_sublist 0 s)

/-- C11 (the code at the failing inputs): in continuous mode with capture not
active, `utterance.onend` schedules exactly one restart, and when no other
restart timer is pending the timers create at most one session in whatever
order they fire.  But a restart timer of `recognition.onend` or of the mic
click that is still pending at the speech end fires too, and since
`isRecording` is only set by `recognition.onstart`, both timers pass the guard
of `startRecognition`: two sessions are created for the one speech end. -/
theorem C11_duplicate_restart :
    (∀ s : VoiceState, s.continuousMode = true → s.isRecording = false →
      (utteranceOnend s).timers = s.timers ++ [Timer.speechEndRestart] ∧
      (utteranceOnend s).sessions = s.sessions) ∧
    (∀ (s : VoiceState) (ts : List Timer), s.continuousMode = true → s.isRecording = false →
      pendingRestarts s = 0 →
      (run (utteranceOnend s) (ts.map Event.timerFire)).sessions ≤ s.sessions + 1) ∧
    (canOccur 0 VoiceState.init (speechEndAfterRecognitionEnd ++
        [Event.timerFire Timer.recEndRestart, Event.timerFire Timer.speechEndRestart]) = true ∧
      (run VoiceState.init speechEndAfterRecognitionEnd).continuousMode = true ∧
      (run VoiceState.init speechEndAfterRecognitionEnd).isRecording = false ∧
      (run VoiceState.init speechEndAfterRecognitionEnd).sessions = 1 ∧
      (run VoiceState.init speechEndAfterRecognitionEnd).timers
        = [Timer.recEndRestart, Timer.speechEndRestart] ∧
      (run VoiceState.init (speechEndAfterRecognitionEnd ++
        [Event.timerFire Timer.recEndRestart, Event.timerFire Timer.speechEndRestart])
        ).sessions = 3) ∧
    (canOccur 0 VoiceState.init (speechEndAfterMicClick ++
        [Event.timerFire Timer.clickRestart, Event.timerFire Timer.speechEndRestart]) = true ∧
      (run VoiceState.init speechEndAfterMicClick).continuousMode = true ∧
      (run VoiceState.init speechEndAfterMicClick).isRecording = false ∧
      (run VoiceState.init speechEndAfterMicClick).sessions = 1 ∧
      (run VoiceState.init speechEndAfterMicClick).timers
        = [Timer.clearInput, Timer.clickRestart, Timer.speechEndRestart] ∧
      (run VoiceState.init (speechEndAfterMicClick ++
        [Event.timerFire Timer.clickRestart, Event.timerFire Timer.speechEndRestart])
        ).sessions = 3) := by
  refine ⟨?_, ?_, by decide, by decide⟩
  · intro s hc hr
    simp [utteranceOnend, hc, hr]
  · intro s ts hc hr h0
    have hb := run_timers_bound (utteranceOnend s) ts
    have h1 : pendingRestarts (utteranceOnend s) = 1 := by
      simp only [pendingRestarts] at h0 ⊢
      simp [utteranceOnend, hc, hr, List.count_append, List.count_singleton]
      omega
    have h2 : (utteranceOnend s).sessions = s.sessions := by
      simp [utteranceOnend, hc, hr]
    omega

/-- C12 (as stated, refuted): with voice output switched off while an earlier
utterance is still being spoken, a final result sets `processingInput`; the
end of that utterance clears it although voice output stays disabled, and
`recognition.onend` then schedules a restart. -/
theorem C12_counterexample :
    canOccur 0 VoiceState.init
        (finalResultDuringSpeech ++ [Event.utteranceOnend, Event.recognitionOnend]) = true ∧
    (run VoiceState.init finalResultDuringSpeech).outputChecked = false ∧
    (run VoiceState.init finalResultDuringSpeech).processingInput = true ∧
    (run VoiceState.init finalResultDuringSpeech).continuousMode = true ∧
    (run VoiceState.init (finalResultDuringSpeech ++ [Event.utteranceOnend])).outputChecked
      = false ∧
    (run VoiceState.init (finalResultDuringSpeech ++ [Event.utteranceOnend])).processingInput
      = false ∧
    (run VoiceState.init (finalResultDuringSpeech ++ [Event.utteranceOnend])).timers
      = [Timer.submit] ∧
    (run VoiceState.init
        (finalResultDuringSpeech ++ [Event.utteranceOnend, Event.recognitionOnend])).timers
      = [Timer.submit, Timer.recEndRestart] := by
  decide

/-- C12 (amended): `processingInput` is set only by a final recognition result
and cleared only by `utterance.onend` or `utterance.onerror`; with voice output
disabled `speakMessage` changes nothing; hence, after a final result, while
voice output stays disabled and no earlier utterance is still pending, every
sequence of events that can occur keeps `processingInput` true and creates no
utterance, and `recognition.onend` then schedules no restart, whatever the
continuous mode. -/
theorem C12_processing_stuck :
    (∀ (s : VoiceState) (e : Event), s.processingInput = false →
      (step s e).processingInput = true →
      ∃ transcript, e = Event.recognitionOnresult transcript true) ∧
    (∀ (s : VoiceState) (e : Event), s.processingInput = true →
      (step s e).processingInput = false →
      e = Event.utteranceOnend ∨ e = Event.utteranceOnerror) ∧
    (∀ (s : VoiceState) (message : Str), s.outputChecked = false →
      speakMessage message s = s) ∧
    (∀ (s : VoiceState) (transcript : Str) (events : List Event),
      s.outputChecked = false →
      (∀ e ∈ events, e ≠ Event.outputChange true) →
      canOccur 0 (recognitionOnresult transcript true s) events = true →
      (run (recognitionOnresult transcript true s) events).processingInput = true ∧
      (run (recognitionOnresult transcript true s) events).spoken = s.spoken ∧
      (recognitionOnend (run (recognitionOnresult transcript true s) events)).timers
        = (run (recognitionOnresult transcript true s) events).timers) := by
  refine ⟨?_, ?_, ?_, ?_⟩
  · intro s e h0 h1
    rw [step_processingInput] at h1
    cases e with
    | recognitionOnresult transcript isFinal =>
      cases isFinal
      · simp [h0] at h1
      · exact ⟨transcript, rfl⟩
    | _ => simp [h0] at h1
  · intro s e h0 h1
    rw [step_processingInput] at h1
    cases e with
    | recognitionOnresult transcript isFinal => cases isFinal <;> simp [h0] at h1
    | utteranceOnend => exact Or.inl rfl
    | utteranceOnerror => exact Or.inr rfl
    | _ => simp [h0] at h1
  · intro s message hout
    simp [speakMessage, hout]
  · intro s transcript events hout hstay hcan
    have h0 : (recognitionOnresult transcript true s).outputChecked = false ∧
        (recognitionOnresult transcript true s).processingInput = true ∧
        (recognitionOnresult transcript true s).spoken = s.spoken := by
      simp [recognitionOnresult, updateVoiceStatus, hout]
    obtain ⟨_, h2, h3⟩ := run_output_disabled _ events h0.1 h0.2.1 hstay hcan
    refine ⟨h2, h3.trans h0.2.2, ?_⟩
    simp [recognitionOnend, h2]

/-- Witness of C12 (amended): voice output is off from the start; after the
final result the form is submitted, recognition ends, the reply is appended,
the mic is clicked and recognition starts and ends again. -/
theorem C12_processing_stuck_witness :
    (run (recognitionOnresult "hello".toList true outputOffListening)
        [Event.timerFire Timer.submit, Event.recognitionOnend,
          Event.assistantMessage "Hi".toList, Event.micClick, Event.recognitionOnstart,
          Event.recognitionOnend]).processingInput = true ∧
    (run (recognitionOnresult "hello".toList true outputOffListening)
        [Event.timerFire Timer.submit, Event.recognitionOnend,
          Event.assistantMessage "Hi".toList, Event.micClick, Event.recognitionOnstart,
          Event.recognitionOnend]).spoken = outputOffListening.spoken ∧
    (recognitionOnend (run (recognitionOnresult "hello".toList true outputOffListening)
        [Event.timerFire Timer.submit, Event.recognitionOnend,
          Event.assistantMessage "Hi".toList, Event.micClick, Event.recognitionOnstart,
          Event.recognitionOnend])).timers
      = (run (recognitionOnresult "hello".toList true outputOffListening)
        [Event.timerFire Timer.submit, Event.recognitionOnend,
          Event.assistantMessage "Hi".toList, Event.micClick, Event.recognitionOnstart,
          Event.recognitionOnend]).timers :=
  C12_processing_stuck.2.2.2 outputOffListening "hello".toList
    [Event.timerFire Timer.submit, Event.recognitionOnend,
      Event.assistantMessage "Hi".toList, Event.micClick, Event.recognitionOnstart,
      Event.recognitionOnend]
    (by decide) (by decide) (by decide)

end ChatWidget
